import Mathlib

/-
Verification of the PyNCband core-shell nanocrystal solver.

This file shallowly embeds the numeric core of the library
(src/PyNCband/physicsfunctions.py and src/PyNCband/CoreShellParticle.py)
into Lean: Python floats become real numbers, complex values become `ℂ`,
Python `None` becomes `Option`, and raised exceptions become `Except`
values that propagate like Python exceptions.  The external root refiner
`scipy.optimize.brentq` is passed in as an oracle parameter, since it is
not code of this repository.  Theorems about the embedded definitions
then settle the specification's claims.
-/

noncomputable section

namespace PyNCband

open scoped Classical

/-- Planck constant, J s (scipy.constants.h, CODATA 2018 exact value). -/
def planck_h : ℝ := 6.62607015e-34

/-- Reduced Planck constant `h / (2 π)` (scipy.constants.hbar). -/
def hbar : ℝ := planck_h / (2 * Real.pi)

/-- Electron rest mass, kg (scipy.constants.m_e). -/
def m_e : ℝ := 9.1093837015e-31

/-- Elementary charge, C (scipy.constants.e). -/
def e : ℝ := 1.602176634e-19

/-- Vacuum permittivity, F/m (scipy.constants.epsilon_0). -/
def eps0 : ℝ := 8.8541878128e-12

/-- The nanometre length unit `n_ = 1e-9` used throughout the source. -/
def n_ : ℝ := 1e-9

theorem pi_pos : (0 : ℝ) < Real.pi := Real.pi_pos

theorem hbar_pos : 0 < hbar := by
  unfold hbar planck_h
  positivity

theorem e_pos : 0 < e := by unfold e; norm_num

/-- Modelled from the spec: the MaterialRecord data holder (`Material.py` is
not under src/; the spec describes it as an immutable record of conduction
and valence band edges, electron and hole effective-mass ratios and the
dielectric constant, and the tests construct it positionally in that order;
the string label is irrelevant to every claim and omitted). -/
structure Material where
  cbe : ℝ
  vbe : ℝ
  m_e : ℝ
  m_h : ℝ
  eps : ℝ

/-- The Python exception kinds the embedded code can raise, plus the error
kind `NoBoundStateFound` that the specification names; the source never
raises the latter. -/
inductive PyError where
  | indexError : PyError
  | typeError : PyError
  | noBoundStateFound : PyError
deriving DecidableEq

/-- `numpy.lib.scimath.sqrt` on a real argument: the principal branch of
the complex square root (non-negative real part; for a negative argument
the result is `i * sqrt (-x)`). -/
def csqrt (x : ℝ) : ℂ :=
  if 0 ≤ x then ((Real.sqrt x : ℝ) : ℂ) else Complex.I * ((Real.sqrt (-x) : ℝ) : ℂ)

/-- `wavenumber_from_energy` (physicsfunctions.py lines 161-166):
`csqrt(2 * mass * m_e * (energy - potential_offset)) / hbar`. -/
def wavenumber_from_energy (energy mass potential_offset : ℝ) : ℂ :=
  csqrt (2 * mass * m_e * (energy - potential_offset)) / ((hbar : ℝ) : ℂ)

/-- `_tanxdivx` (physicsfunctions.py lines 49-57): a second-order Taylor
expansion `1 - x^2 / 2` for `|x| < 1e-13`, otherwise `tan x / x`; defined
for real and complex arguments alike (the real case is the restriction of
this complex one). -/
def tanxdivx (x : ℂ) : ℂ :=
  if Complex.abs x < 1e-13 then 1 - x ^ 2 / 2 else Complex.tan x / x

/-- `_heaviside` (physicsfunctions.py lines 38-45): the step function with
value `x2` at zero. -/
def _heaviside (x1 x2 : ℝ) : ℝ :=
  if x1 > 0 then 1 else if x1 = 0 then x2 else 0

/-- `CoreShellParticle._is_type_one` (CoreShellParticle.py lines 387-388). -/
def _is_type_one (cmat smat : Material) : Prop :=
  cmat.vbe > smat.vbe ∧ cmat.cbe < smat.cbe

/-- `CoreShellParticle._is_type_two` (CoreShellParticle.py lines 390-399):
returns `(core_higher or shell_higher, core_higher, shell_higher)`. -/
def _is_type_two (cmat smat : Material) : Prop × Prop × Prop :=
  let core_higher := cmat.vbe > smat.vbe ∧ cmat.cbe > smat.cbe
  let shell_higher := cmat.vbe < smat.vbe ∧ cmat.cbe < smat.cbe
  (core_higher ∨ shell_higher, core_higher, shell_higher)

/-- The mutable state of a `CoreShellParticle` instance: the attributes set
by `__init__` (CoreShellParticle.py lines 22-41).  `s1_e`/`s1_h` are
`None` until computed, hence `Option ℝ`. -/
structure CoreShellParticle where
  cmat : Material
  smat : Material
  core_width : ℝ
  shell_width : ℝ
  radius : ℝ
  type_one : Prop
  type_two : Prop
  h_e : Prop
  e_h : Prop
  energies_valid : Bool
  s1_e : Option ℝ
  s1_h : Option ℝ
  ue : ℝ
  uh : ℝ

/-- `CoreShellParticle.__init__` (CoreShellParticle.py lines 22-41): widths
are given in nanometres and scaled by `n_`, `radius` is set to their sum,
the band-alignment flags are computed from the band edges, the cache flag
starts `False`, and the potential offsets are
`|cbe difference| * e` and `|vbe difference| * e`. -/
def CoreShellParticle.init (core_material shell_material : Material)
    (core_width shell_width : ℝ) : CoreShellParticle :=
  { cmat := core_material
    smat := shell_material
    core_width := core_width * n_
    shell_width := shell_width * n_
    radius := (core_width + shell_width) * n_
    type_one := _is_type_one core_material shell_material
    type_two := (_is_type_two core_material shell_material).1
    h_e := (_is_type_two core_material shell_material).2.1
    e_h := (_is_type_two core_material shell_material).2.2
    energies_valid := false
    s1_e := none
    s1_h := none
    ue := |core_material.cbe - shell_material.cbe| * e
    uh := |core_material.vbe - shell_material.vbe| * e }

/-- `CoreShellParticle.set_core_width` (CoreShellParticle.py lines 43-45). -/
def CoreShellParticle.set_core_width (self : CoreShellParticle) (x : ℝ) :
    CoreShellParticle :=
  { self with core_width := x * n_, energies_valid := false }

/-- `CoreShellParticle.set_shell_width` (CoreShellParticle.py lines 47-49). -/
def CoreShellParticle.set_shell_width (self : CoreShellParticle) (x : ℝ) :
    CoreShellParticle :=
  { self with shell_width := x * n_, energies_valid := false }

/-- The local variables `k_e, q_e` of `electron_eigenvalue_residual`
(physicsfunctions.py lines 194-204): both start as `None` and are assigned
only under one of the two type-II orderings. -/
def electron_wavevectors (particle : CoreShellParticle) (energy : ℝ) :
    Option (ℂ × ℂ) :=
  if particle.e_h then
    some (wavenumber_from_energy energy particle.cmat.m_e 0,
          wavenumber_from_energy energy particle.smat.m_e particle.ue)
  else if particle.h_e then
    some (wavenumber_from_energy energy particle.cmat.m_e particle.ue,
          wavenumber_from_energy energy particle.smat.m_e 0)
  else none

/-- The local variables `k_h, q_h` of `hole_eigenvalue_residual`
(physicsfunctions.py lines 247-257).  The source text is identical to the
electron case: it reads `cmat.m_e`, `smat.m_e` and `particle.ue`, not the
hole fields. -/
def hole_wavevectors (particle : CoreShellParticle) (energy : ℝ) :
    Option (ℂ × ℂ) :=
  if particle.e_h then
    some (wavenumber_from_energy energy particle.cmat.m_e 0,
          wavenumber_from_energy energy particle.smat.m_e particle.ue)
  else if particle.h_e then
    some (wavenumber_from_energy energy particle.cmat.m_e particle.ue,
          wavenumber_from_energy energy particle.smat.m_e 0)
  else none

/-- The `_residual` expression shared by both eigenvalue residuals
(physicsfunctions.py lines 212-217 and 265-270):
`Re[(1 - 1/tanxdivx(core_x)) * mass_ratio - 1
   - 1/tanxdivx(shell_x) * core_width / shell_width]`. -/
def residual_formula (core_x shell_x : ℂ) (core_width shell_width mass_ratio : ℝ) : ℝ :=
  ((1 - 1 / tanxdivx core_x) * ((mass_ratio : ℝ) : ℂ) - 1
      - 1 / tanxdivx shell_x * ((core_width : ℝ) : ℂ) / ((shell_width : ℝ) : ℂ)).re

/-- `electron_eigenvalue_residual` (physicsfunctions.py lines 169-219):
when both type-II flags are false the wavevectors stay `None` and the
arithmetic `k_e * core_width` raises a `TypeError`; `mass_ratio` is
`smat.m_e / cmat.m_e`. -/
def electron_eigenvalue_residual (particle : CoreShellParticle) (energy : ℝ) :
    Except PyError ℝ :=
  match electron_wavevectors particle energy with
  | none => .error .typeError
  | some (k_e, q_e) =>
      .ok (residual_formula (k_e * ((particle.core_width : ℝ) : ℂ))
        (q_e * ((particle.shell_width : ℝ) : ℂ))
        particle.core_width particle.shell_width
        (particle.smat.m_e / particle.cmat.m_e))

/-- `hole_eigenvalue_residual` (physicsfunctions.py lines 222-272): the
wavevectors come from `hole_wavevectors` (electron masses and offset, as
in the source), while `mass_ratio` is `smat.m_h / cmat.m_h`. -/
def hole_eigenvalue_residual (particle : CoreShellParticle) (energy : ℝ) :
    Except PyError ℝ :=
  match hole_wavevectors particle energy with
  | none => .error .typeError
  | some (k_h, q_h) =>
      .ok (residual_formula (k_h * ((particle.core_width : ℝ) : ℂ))
        (q_h * ((particle.shell_width : ℝ) : ℂ))
        particle.core_width particle.shell_width
        (particle.smat.m_h / particle.cmat.m_h))

/-- `numpy.sign` on a real number. -/
def npSign (x : ℝ) : ℝ :=
  if x > 0 then 1 else if x < 0 then -1 else 0

/-- `numpy.linspace lower upper resolution`: `resolution` equally spaced
samples from `lower` to `upper`, endpoints included. -/
def linspace (lower upper : ℝ) (resolution : ℕ) : List ℝ :=
  (List.range resolution).map fun i : ℕ =>
    lower + (i : ℝ) * ((upper - lower) / ((resolution : ℝ) - 1))

/-- The scan of `scan_and_bracket` (physicsfunctions.py lines 335-340):
`argwhere(where(diff(sign(y)) > 0.5, 1, 0))[0]`, i.e. the index of the
first adjacent pair whose sign difference exceeds `0.5` (a
negative-to-positive transition), if any. -/
def firstNeg2Pos : List ℝ → Option ℕ
  | y0 :: y1 :: rest =>
      if npSign y1 - npSign y0 > 0.5 then some 0
      else (firstNeg2Pos (y1 :: rest)).map Nat.succ
  | _ => none

/-- The vectorized evaluation `y = f(x)` over the sample array: an
exception raised at any sample propagates. -/
def evalAll (f : ℝ → Except PyError ℝ) : List ℝ → Except PyError (List ℝ)
  | [] => .ok []
  | a :: rest =>
      match f a with
      | .error err => .error err
      | .ok ya =>
          match evalAll f rest with
          | .error err => .error err
          | .ok yrest => .ok (ya :: yrest)

/-- `scan_and_bracket` (physicsfunctions.py lines 329-341): sample `f` on
`linspace lower_bound upper_bound resolution`, look for the first
negative-to-positive sign transition and return the bracketing sample
pair; indexing the empty transition array raises an `IndexError`.
Exceptions raised while evaluating `f` propagate. -/
def scan_and_bracket (f : ℝ → Except PyError ℝ)
    (lower_bound upper_bound : ℝ) (resolution : ℕ) :
    Except PyError (ℝ × ℝ) :=
  match evalAll f (linspace lower_bound upper_bound resolution) with
  | .error err => .error err
  | .ok y =>
      match firstNeg2Pos y with
      | some root_position =>
          .ok ((linspace lower_bound upper_bound resolution).getD root_position 0,
            (linspace lower_bound upper_bound resolution).getD (root_position + 1) 0)
      | none => .error .indexError

/-- The interface of `scipy.optimize.brentq` (an external collaborator,
not code of this repository): a bracketed root refiner that evaluates the
residual, so exceptions it raises there propagate. -/
def Oracle : Type :=
  (ℝ → Except PyError ℝ) → ℝ → ℝ → Except PyError ℝ

/-- `CoreShellParticle.calculate_s1_energies` (CoreShellParticle.py lines
86-124): a cache hit returns the stored `s1_e, s1_h` unchanged; otherwise
both residuals are scanned over `[0, 5 * offset]` (unless `bounds`
overrides the range), refined with `brentq`, stored in joules,
`energies_valid` is set, and with `as_ev` the returned pair is divided by
`e`. -/
def CoreShellParticle.calculate_s1_energies (brentq : Oracle)
    (self : CoreShellParticle) (bounds : Option ((ℝ × ℝ) × (ℝ × ℝ)))
    (resolution : ℕ) (as_ev : Bool) :
    Except PyError ((Option ℝ × Option ℝ) × CoreShellParticle) :=
  if self.energies_valid then
    .ok ((self.s1_e, self.s1_h), self)
  else
    let bounds_e : ℝ × ℝ :=
      match bounds with
      | some (be, _) => be
      | none => (0, 5 * self.ue)
    match scan_and_bracket (fun E => electron_eigenvalue_residual self E)
        bounds_e.1 bounds_e.2 resolution with
    | .error err => .error err
    | .ok bracket =>
        match brentq (fun E => electron_eigenvalue_residual self E)
            bracket.1 bracket.2 with
        | .error err => .error err
        | .ok s1_e =>
            let bounds_h : ℝ × ℝ :=
              match bounds with
              | some (_, bh) => bh
              | none => (0, 5 * self.uh)
            match scan_and_bracket (fun E => hole_eigenvalue_residual self E)
                bounds_h.1 bounds_h.2 resolution with
            | .error err => .error err
            | .ok bracket2 =>
                match brentq (fun E => hole_eigenvalue_residual self E)
                    bracket2.1 bracket2.2 with
                | .error err => .error err
                | .ok s1_h =>
                    let self2 := { self with s1_e := some s1_e, s1_h := some s1_h,
                                             energies_valid := true }
                    if as_ev then
                      .ok ((some (s1_e / e), some (s1_h / e)), self2)
                    else
                      .ok ((some s1_e, some s1_h), self2)

/-- `make_coulomb_screening_operator` applied to its particle and radii
(physicsfunctions.py lines 286-304): the core width is rescaled to
nanometre units, the step function uses value `0.5` at zero, each term is
divided by the region's dielectric constant times `eps0`, and the result
is scaled by `e / n_`. -/
def coulomb_screening_operator (coreshellparticle : CoreShellParticle)
    (r_a r_b : ℝ) : ℝ :=
  let core_width := coreshellparticle.core_width / n_
  let core_eps := coreshellparticle.cmat.eps
  let shell_eps := coreshellparticle.smat.eps
  let rmax := max r_a r_b
  let r_c := core_width
  let taz : ℝ := 0.5
  let val := -_heaviside (r_c - r_a) taz * _heaviside (r_c - r_b) taz /
      (rmax * core_eps * eps0)
    - (_heaviside (r_a - r_c) taz + _heaviside (r_b - r_c) taz) /
      (2 * rmax * shell_eps * eps0)
  val * e / n_

/-- The Coulomb screening operator exactly as the specification's words
state it: `-step(core - r_a) * step(core - r_b) / (max(r_a, r_b) * core_eps)
- (step(r_a - core) + step(r_b - core)) / (2 * max(r_a, r_b) * shell_eps)`,
scaled by the elementary charge and the length unit (no vacuum
permittivity factor appears in the spec's formula). -/
def coulomb_screening_operator_spec (coreshellparticle : CoreShellParticle)
    (r_a r_b : ℝ) : ℝ :=
  let core_width := coreshellparticle.core_width / n_
  let core_eps := coreshellparticle.cmat.eps
  let shell_eps := coreshellparticle.smat.eps
  let rmax := max r_a r_b
  let r_c := core_width
  let taz : ℝ := 0.5
  let val := -_heaviside (r_c - r_a) taz * _heaviside (r_c - r_b) taz /
      (rmax * core_eps)
    - (_heaviside (r_a - r_c) taz + _heaviside (r_b - r_c) taz) /
      (2 * rmax * shell_eps)
  val * e / n_

/-- The hole wavevector assignment as the claim states it: derived from
the hole effective-mass ratios `cmat.m_h`, `smat.m_h` and the hole
potential offset `uh`. -/
def hole_wavevectors_spec (particle : CoreShellParticle) (energy : ℝ) :
    Option (ℂ × ℂ) :=
  if particle.e_h then
    some (wavenumber_from_energy energy particle.cmat.m_h 0,
          wavenumber_from_energy energy particle.smat.m_h particle.uh)
  else if particle.h_e then
    some (wavenumber_from_energy energy particle.cmat.m_h particle.uh,
          wavenumber_from_energy energy particle.smat.m_h 0)
  else none

/-! Basic facts about the embedded primitives. -/

theorem m_e_pos : 0 < m_e := by unfold m_e; norm_num

theorem csqrt_of_nonneg {x : ℝ} (h : 0 ≤ x) :
    csqrt x = ((Real.sqrt x : ℝ) : ℂ) := by
  unfold csqrt
  exact if_pos h

theorem csqrt_of_neg {x : ℝ} (h : x < 0) :
    csqrt x = Complex.I * ((Real.sqrt (-x) : ℝ) : ℂ) := by
  unfold csqrt
  exact if_neg (not_le.mpr h)

theorem csqrt_sq (x : ℝ) : (csqrt x) ^ 2 = (x : ℂ) := by
  by_cases h : 0 ≤ x
  · rw [csqrt_of_nonneg h]
    rw [← Complex.ofReal_pow, Real.sq_sqrt h]
  · push_neg at h
    rw [csqrt_of_neg h, mul_pow, Complex.I_sq, ← Complex.ofReal_pow,
      Real.sq_sqrt (by linarith : (0 : ℝ) ≤ -x)]
    push_cast
    ring

theorem csqrt_re_nonneg (x : ℝ) : 0 ≤ (csqrt x).re := by
  by_cases h : 0 ≤ x
  · rw [csqrt_of_nonneg h, Complex.ofReal_re]
    exact Real.sqrt_nonneg x
  · push_neg at h
    rw [csqrt_of_neg h]
    simp

theorem csqrt_zero : csqrt 0 = 0 := by
  rw [csqrt_of_nonneg le_rfl]
  simp

theorem tanxdivx_zero : tanxdivx 0 = 1 := by
  unfold tanxdivx
  rw [if_pos (by norm_num)]
  norm_num

/-- C6: `wavenumber_from_energy` computes
`sqrt(2 * mass * m_e * (energy - offset)) / hbar` with the principal
branch of the complex square root (`csqrt x` squares back to `x` and has
non-negative real part); at `energy = potential_offset` it is exactly `0`,
and for `energy ≥ potential_offset` (with a non-negative mass ratio) the
result is real. -/
theorem wavenumber_from_energy_principal_sqrt :
    (∀ x : ℝ, (csqrt x) ^ 2 = (x : ℂ) ∧ 0 ≤ (csqrt x).re) ∧
    (∀ energy mass potential_offset : ℝ,
        wavenumber_from_energy energy mass potential_offset =
          csqrt (2 * mass * m_e * (energy - potential_offset)) / ((hbar : ℝ) : ℂ)) ∧
    (∀ mass potential_offset : ℝ,
        wavenumber_from_energy potential_offset mass potential_offset = 0) ∧
    (∀ energy mass potential_offset : ℝ, 0 ≤ mass → potential_offset ≤ energy →
        (wavenumber_from_energy energy mass potential_offset).im = 0) := by
  refine ⟨fun x => ⟨csqrt_sq x, csqrt_re_nonneg x⟩, fun _ _ _ => rfl, ?_, ?_⟩
  · intro mass potential_offset
    unfold wavenumber_from_energy
    rw [sub_self, mul_zero, csqrt_zero, zero_div]
  · intro energy mass potential_offset hm he
    unfold wavenumber_from_energy
    have harg : 0 ≤ 2 * mass * m_e * (energy - potential_offset) := by
      have := m_e_pos
      have : (0 : ℝ) ≤ 2 * mass * m_e := by positivity
      exact mul_nonneg this (by linarith)
    rw [csqrt_of_nonneg harg, ← Complex.ofReal_div]
    simp

/-- C7: `tanxdivx` returns the Taylor form `1 - x^2/2` for `|x| < 1e-13`
and `tan x / x` otherwise (for real and complex arguments alike);
consequently `tanxdivx 0 = 1`, and at `x = 1e-6` it agrees with
`tan x / x` to relative error below `1e-9` (it is that quotient exactly). -/
theorem tanxdivx_branches :
    (∀ x : ℂ, Complex.abs x < 1e-13 → tanxdivx x = 1 - x ^ 2 / 2) ∧
    (∀ x : ℂ, ¬ Complex.abs x < 1e-13 → tanxdivx x = Complex.tan x / x) ∧
    tanxdivx 0 = 1 ∧
    Complex.abs (tanxdivx ((1e-6 : ℝ) : ℂ) - Complex.tan ((1e-6 : ℝ) : ℂ) / ((1e-6 : ℝ) : ℂ)) /
        Complex.abs (Complex.tan ((1e-6 : ℝ) : ℂ) / ((1e-6 : ℝ) : ℂ)) < 1e-9 := by
  have hbig : tanxdivx ((1e-6 : ℝ) : ℂ) =
      Complex.tan ((1e-6 : ℝ) : ℂ) / ((1e-6 : ℝ) : ℂ) := by
    have habs : ¬ Complex.abs ((1e-6 : ℝ) : ℂ) < 1e-13 := by
      rw [Complex.abs_ofReal, abs_of_pos (by norm_num : (0 : ℝ) < 1e-6)]
      norm_num
    unfold tanxdivx
    exact if_neg habs
  refine ⟨fun x hx => ?_, fun x hx => ?_, tanxdivx_zero, ?_⟩
  · unfold tanxdivx
    exact if_pos hx
  · unfold tanxdivx
    exact if_neg hx
  · rw [hbig, sub_self, map_zero, zero_div]
    norm_num

/-- C8: materials with a strictly higher core valence band edge and a
strictly lower core conduction band edge are classified Type I, and
neither of the two type-II orderings holds for them. -/
theorem type_one_classification (cmat smat : Material)
    (core_width shell_width : ℝ)
    (hv : cmat.vbe > smat.vbe) (hc : cmat.cbe < smat.cbe) :
    (CoreShellParticle.init cmat smat core_width shell_width).type_one ∧
    ¬ (CoreShellParticle.init cmat smat core_width shell_width).type_two ∧
    ¬ (CoreShellParticle.init cmat smat core_width shell_width).h_e ∧
    ¬ (CoreShellParticle.init cmat smat core_width shell_width).e_h := by
  refine ⟨⟨hv, hc⟩, ?_, ?_, ?_⟩
  · rintro (⟨_, hcb⟩ | ⟨hvb, _⟩)
    · exact absurd hcb (not_lt.mpr hc.le)
    · exact absurd hvb (not_lt.mpr hv.le)
  · rintro ⟨_, hcb⟩
    exact absurd hcb (not_lt.mpr hc.le)
  · rintro ⟨hvb, _⟩
    exact absurd hvb (not_lt.mpr hv.le)

/-- C8 witness: the InP/CdS materials of the repository's own test data
(band edges in the constructor order `cbe, vbe, m_e, m_h, eps`) give a
Type I particle with both type-II flags false. -/
theorem type_one_classification_witness :
    (CoreShellParticle.init ⟨1.34, 0, 0.07, 0.64, 9.6⟩
        ⟨2.20, -0.39, 0.21, 0.68, 5.3⟩ 1.23 1.05).type_one ∧
    ¬ (CoreShellParticle.init ⟨1.34, 0, 0.07, 0.64, 9.6⟩
        ⟨2.20, -0.39, 0.21, 0.68, 5.3⟩ 1.23 1.05).type_two ∧
    ¬ (CoreShellParticle.init ⟨1.34, 0, 0.07, 0.64, 9.6⟩
        ⟨2.20, -0.39, 0.21, 0.68, 5.3⟩ 1.23 1.05).h_e ∧
    ¬ (CoreShellParticle.init ⟨1.34, 0, 0.07, 0.64, 9.6⟩
        ⟨2.20, -0.39, 0.21, 0.68, 5.3⟩ 1.23 1.05).e_h :=
  type_one_classification _ _ _ _ (by norm_num) (by norm_num)

/-! Facts about `npSign`, `linspace`, `firstNeg2Pos` and `evalAll`. -/

theorem npSign_of_pos {x : ℝ} (h : 0 < x) : npSign x = 1 := by
  unfold npSign
  rw [if_pos h]

theorem npSign_of_neg {x : ℝ} (h : x < 0) : npSign x = -1 := by
  unfold npSign
  rw [if_neg (by linarith), if_pos h]

theorem npSign_zero : npSign 0 = 0 := by
  unfold npSign
  norm_num

/-- A positive-to-negative sign change gives `diff(sign) = -2`, which the
`> 0.5` test rejects: only the negative-to-positive polarity is selected. -/
theorem pos2neg_not_selected {u v : ℝ} (hu : 0 < u) (hv : v < 0) :
    ¬ npSign v - npSign u > 0.5 := by
  rw [npSign_of_pos hu, npSign_of_neg hv]
  norm_num

/-- On samples that are all nonzero, a selected transition is exactly a
strictly negative sample followed by a strictly positive one. -/
theorem neg2pos_of_signs {u v : ℝ} (hu : u ≠ 0) (hv : v ≠ 0)
    (h : npSign v - npSign u > 0.5) : u < 0 ∧ 0 < v := by
  rcases hu.lt_or_lt with hu' | hu' <;> rcases hv.lt_or_lt with hv' | hv'
  · rw [npSign_of_neg hu', npSign_of_neg hv'] at h
    norm_num at h
  · exact ⟨hu', hv'⟩
  · rw [npSign_of_pos hu', npSign_of_neg hv'] at h
    norm_num at h
  · rw [npSign_of_pos hu', npSign_of_pos hv'] at h
    norm_num at h

theorem linspace_length (lower upper : ℝ) (n : ℕ) :
    (linspace lower upper n).length = n := by
  unfold linspace
  rw [List.length_map, List.length_range]

theorem linspace_ne_nil {lower upper : ℝ} {n : ℕ} (h : 1 ≤ n) :
    linspace lower upper n ≠ [] := by
  have := linspace_length lower upper n
  intro hc
  rw [hc] at this
  simp at this
  omega

theorem linspace_getD {lower upper : ℝ} {n i : ℕ} (h : i < n) :
    (linspace lower upper n).getD i 0 =
      lower + (i : ℝ) * ((upper - lower) / ((n : ℝ) - 1)) := by
  have hlen : i < (linspace lower upper n).length := by
    rw [linspace_length]
    exact h
  rw [List.getD_eq_getElem _ _ hlen]
  unfold linspace
  rw [List.getElem_map, List.getElem_range]

theorem linspace_spacing {lower upper : ℝ} {n i : ℕ} (h : i + 1 < n) :
    (linspace lower upper n).getD (i + 1) 0 - (linspace lower upper n).getD i 0 =
      (upper - lower) / ((n : ℝ) - 1) := by
  rw [linspace_getD h, linspace_getD (Nat.lt_of_succ_lt h)]
  push_cast
  ring

theorem linspace_first {lower upper : ℝ} {n : ℕ} (h : 0 < n) :
    (linspace lower upper n).getD 0 0 = lower := by
  rw [linspace_getD h]
  simp

theorem linspace_last {lower upper : ℝ} {n : ℕ} (h : 2 ≤ n) :
    (linspace lower upper n).getD (n - 1) 0 = upper := by
  rw [linspace_getD (by omega)]
  have h1 : (1 : ℕ) ≤ n := by omega
  have hcast : ((n - 1 : ℕ) : ℝ) = (n : ℝ) - 1 := by
    push_cast [Nat.cast_sub h1]
    ring
  have hne : ((n : ℝ) - 1) ≠ 0 := by
    have : (2 : ℝ) ≤ (n : ℝ) := by exact_mod_cast h
    linarith
  rw [hcast]
  field_simp

theorem firstNeg2Pos_cons₂ (y0 y1 : ℝ) (rest : List ℝ) :
    firstNeg2Pos (y0 :: y1 :: rest) =
      if npSign y1 - npSign y0 > 0.5 then some 0
      else (firstNeg2Pos (y1 :: rest)).map Nat.succ := rfl

/-- A successful scan returns the first index whose adjacent sign
difference exceeds `0.5`, and no earlier index qualifies. -/
theorem firstNeg2Pos_some_spec :
    ∀ (ys : List ℝ) (i : ℕ), firstNeg2Pos ys = some i →
      i + 1 < ys.length ∧
      npSign (ys.getD (i + 1) 0) - npSign (ys.getD i 0) > 0.5 ∧
      ∀ j, j < i → ¬ npSign (ys.getD (j + 1) 0) - npSign (ys.getD j 0) > 0.5 := by
  intro ys
  induction ys with
  | nil => intro i h; simp [firstNeg2Pos] at h
  | cons y0 tl ih =>
    intro i h
    cases tl with
    | nil => simp [firstNeg2Pos] at h
    | cons y1 rest =>
      rw [firstNeg2Pos_cons₂] at h
      by_cases hc : npSign y1 - npSign y0 > 0.5
      · rw [if_pos hc] at h
        have hi : i = 0 := by
          injection h with h'
          omega
        subst hi
        refine ⟨by simp, by simpa using hc, ?_⟩
        intro j hj
        omega
      · rw [if_neg hc] at h
        cases hrec : firstNeg2Pos (y1 :: rest) with
        | none => rw [hrec] at h; simp at h
        | some i' =>
          rw [hrec] at h
          simp only [Option.map_some'] at h
          have hi : i = i' + 1 := by
            injection h with h'
            omega
          subst hi
          obtain ⟨hlen, htrans, hmin⟩ := ih i' hrec
          refine ⟨by simpa using Nat.succ_lt_succ hlen, by simpa using htrans, ?_⟩
          intro j hj
          cases j with
          | zero => simpa using hc
          | succ j' =>
            have := hmin j' (by omega)
            simpa using this

/-- If no adjacent sign difference exceeds `0.5`, the scan finds nothing. -/
theorem firstNeg2Pos_eq_none :
    ∀ (ys : List ℝ),
      (∀ i, i + 1 < ys.length →
        ¬ npSign (ys.getD (i + 1) 0) - npSign (ys.getD i 0) > 0.5) →
      firstNeg2Pos ys = none := by
  intro ys
  induction ys with
  | nil => intro _; rfl
  | cons y0 tl ih =>
    intro h
    cases tl with
    | nil => rfl
    | cons y1 rest =>
      rw [firstNeg2Pos_cons₂, if_neg (by simpa using h 0 (by simp))]
      have : firstNeg2Pos (y1 :: rest) = none := by
        apply ih
        intro i hi
        have := h (i + 1) (by simpa using Nat.succ_lt_succ hi)
        simpa using this
      rw [this]
      rfl

theorem evalAll_pure (g : ℝ → ℝ) :
    ∀ l : List ℝ, evalAll (fun x => .ok (g x)) l = .ok (l.map g) := by
  intro l
  induction l with
  | nil => rfl
  | cons a rest ih => simp [evalAll, ih]

theorem evalAll_error_of_all_error {f : ℝ → Except PyError ℝ} {err : PyError}
    (h : ∀ x, f x = .error err) :
    ∀ l : List ℝ, l ≠ [] → evalAll f l = .error err := by
  intro l hl
  cases l with
  | nil => exact absurd rfl hl
  | cons a rest => simp [evalAll, h a]

theorem evalAll_ok_length {f : ℝ → Except PyError ℝ} :
    ∀ {l ys : List ℝ}, evalAll f l = .ok ys → ys.length = l.length := by
  intro l
  induction l with
  | nil =>
    intro ys h
    simp only [evalAll] at h
    injection h with h'
    rw [← h']
  | cons a rest ih =>
    intro ys h
    simp only [evalAll] at h
    cases hfa : f a with
    | error err => rw [hfa] at h; simp at h
    | ok ya =>
      rw [hfa] at h
      cases hrest : evalAll f rest with
      | error err => rw [hrest] at h; simp at h
      | ok yrest =>
        rw [hrest] at h
        injection h with h'
        rw [← h']
        simp [ih hrest]

theorem evalAll_ok_pointwise {f : ℝ → Except PyError ℝ} :
    ∀ {l ys : List ℝ}, evalAll f l = .ok ys →
      ∀ i, i < l.length → f (l.getD i 0) = .ok (ys.getD i 0) := by
  intro l
  induction l with
  | nil => intro ys _ i hi; simp at hi
  | cons a rest ih =>
    intro ys h i hi
    simp only [evalAll] at h
    cases hfa : f a with
    | error err => rw [hfa] at h; simp at h
    | ok ya =>
      rw [hfa] at h
      cases hrest : evalAll f rest with
      | error err => rw [hrest] at h; simp at h
      | ok yrest =>
        rw [hrest] at h
        injection h with h'
        subst h'
        cases i with
        | zero => simpa using hfa
        | succ i' =>
          have := ih hrest i' (by simpa using Nat.lt_of_succ_lt_succ hi)
          simpa using this

/-- C3 counterexample: on a residual that is negative at every sample (so
no negative-to-positive transition exists in the scanned range), the
bracket scan fails with an `IndexError` from indexing the empty transition
array — not with the `NoBoundStateFound` error the specification names
(no such error kind exists anywhere in the source). -/
theorem scan_no_transition_indexError_counterexample :
    scan_and_bracket (fun _ => .ok (-1)) 0 1 5 = .error .indexError ∧
    (Except.error PyError.indexError : Except PyError (ℝ × ℝ)) ≠
      .error .noBoundStateFound := by
  constructor
  · unfold scan_and_bracket
    rw [show (fun _ : ℝ => (Except.ok (-1) : Except PyError ℝ)) =
        (fun x : ℝ => .ok ((fun _ => -1) x)) from rfl, evalAll_pure]
    dsimp only
    have hnone : firstNeg2Pos ((linspace 0 1 5).map fun _ => (-1 : ℝ)) = none := by
      apply firstNeg2Pos_eq_none
      intro i hi
      have hlen : ((linspace 0 1 5).map fun _ => (-1 : ℝ)).length = 5 := by
        rw [List.length_map, linspace_length]
      rw [hlen] at hi
      have hgd : ∀ j, j < 5 → ((linspace 0 1 5).map fun _ => (-1 : ℝ)).getD j 0 = -1 := by
        intro j hj
        rw [List.getD_eq_getElem _ _ (by rw [hlen]; omega), List.getElem_map]
      rw [hgd i (by omega), hgd (i + 1) (by omega)]
      norm_num
    rw [hnone]
  · intro h
    injection h with h'
    exact PyError.noConfusion h'

/-- C3 (amended): when evaluating the residual at every sample succeeds
but no adjacent pair of samples shows a sign difference above `0.5` (no
negative-to-positive transition), `scan_and_bracket` fails with an
`IndexError`, and `calculate_s1_energies` propagates any such scan error
to its caller unchanged — it never returns a value. -/
theorem scan_and_bracket_no_transition_raises :
    (∀ (f : ℝ → Except PyError ℝ) (lower upper : ℝ) (n : ℕ) (ys : List ℝ),
      evalAll f (linspace lower upper n) = .ok ys →
      (∀ i, i + 1 < ys.length →
        ¬ npSign (ys.getD (i + 1) 0) - npSign (ys.getD i 0) > 0.5) →
      scan_and_bracket f lower upper n = .error .indexError) ∧
    (∀ (brentq : Oracle) (p : CoreShellParticle) (res : ℕ) (err : PyError),
      p.energies_valid = false →
      scan_and_bracket (fun E => electron_eigenvalue_residual p E) 0 (5 * p.ue) res =
        .error err →
      CoreShellParticle.calculate_s1_energies brentq p none res true = .error err) := by
  constructor
  · intro f lower upper n ys hev hno
    unfold scan_and_bracket
    rw [hev]
    dsimp only
    rw [firstNeg2Pos_eq_none ys hno]
  · intro brentq p res err hvalid hscan
    unfold CoreShellParticle.calculate_s1_energies
    rw [hvalid, if_neg (show ¬(false = true) by simp)]
    dsimp only
    rw [hscan]

/-- C5: the eigen-energy root search samples the residual at `resolution`
equally spaced energies (constant spacing, endpoints `lower` and `upper`,
which `calculate_s1_energies` sets to `0` and `5 * potential_offset`),
selects the first adjacent pair whose sign difference exceeds `0.5` —
exactly the first negative-to-positive transition once no sample is zero,
while a positive-to-negative change is never selected — returns that
bracketing sample pair, and hands it to the bracketed refiner `brentq`. -/
theorem scan_and_bracket_first_neg2pos_selection :
    (∀ (lower upper : ℝ) (n : ℕ), (linspace lower upper n).length = n) ∧
    (∀ (lower upper : ℝ) (n i : ℕ), i + 1 < n →
      (linspace lower upper n).getD (i + 1) 0 - (linspace lower upper n).getD i 0 =
        (upper - lower) / ((n : ℝ) - 1)) ∧
    (∀ (lower upper : ℝ) (n : ℕ), 2 ≤ n →
      (linspace lower upper n).getD 0 0 = lower ∧
      (linspace lower upper n).getD (n - 1) 0 = upper) ∧
    (∀ (f : ℝ → Except PyError ℝ) (lower upper : ℝ) (n : ℕ) (ys : List ℝ) (a b : ℝ),
      evalAll f (linspace lower upper n) = .ok ys →
      scan_and_bracket f lower upper n = .ok (a, b) →
      ys.length = n ∧
      (∀ i, i < n → f ((linspace lower upper n).getD i 0) = .ok (ys.getD i 0)) ∧
      ∃ i, i + 1 < n ∧
        a = (linspace lower upper n).getD i 0 ∧
        b = (linspace lower upper n).getD (i + 1) 0 ∧
        npSign (ys.getD (i + 1) 0) - npSign (ys.getD i 0) > 0.5 ∧
        (∀ j, j < i → ¬ npSign (ys.getD (j + 1) 0) - npSign (ys.getD j 0) > 0.5) ∧
        ((∀ v ∈ ys, v ≠ 0) → ys.getD i 0 < 0 ∧ 0 < ys.getD (i + 1) 0)) ∧
    (∀ u v : ℝ, 0 < u → v < 0 → ¬ npSign v - npSign u > 0.5) ∧
    (∀ (brentq : Oracle) (p : CoreShellParticle) (res : ℕ),
      p.energies_valid = false →
      CoreShellParticle.calculate_s1_energies brentq p none res true =
        (scan_and_bracket (fun E => electron_eigenvalue_residual p E) 0 (5 * p.ue) res).bind
          fun bracket =>
            (brentq (fun E => electron_eigenvalue_residual p E) bracket.1 bracket.2).bind
              fun s1e =>
                (scan_and_bracket (fun E => hole_eigenvalue_residual p E) 0 (5 * p.uh) res).bind
                  fun bracket2 =>
                    (brentq (fun E => hole_eigenvalue_residual p E) bracket2.1 bracket2.2).bind
                      fun s1h =>
                        .ok ((some (s1e / e), some (s1h / e)),
                          { p with s1_e := some s1e, s1_h := some s1h,
                                   energies_valid := true })) := by
  refine ⟨linspace_length, fun _ _ _ _ h => linspace_spacing h,
    fun _ _ n hn => ⟨linspace_first (by omega), linspace_last hn⟩, ?_, ?_, ?_⟩
  · intro f lower upper n ys a b hev hscan
    have hyslen : ys.length = n := by
      rw [evalAll_ok_length hev, linspace_length]
    have hpt : ∀ i, i < n → f ((linspace lower upper n).getD i 0) = .ok (ys.getD i 0) := by
      intro i hi
      exact evalAll_ok_pointwise hev i (by rw [linspace_length]; exact hi)
    refine ⟨hyslen, hpt, ?_⟩
    unfold scan_and_bracket at hscan
    rw [hev] at hscan
    dsimp only at hscan
    cases hfp : firstNeg2Pos ys with
    | none =>
      rw [hfp] at hscan
      exact absurd hscan (by simp)
    | some i =>
      rw [hfp] at hscan
      obtain ⟨hlen, htrans, hmin⟩ := firstNeg2Pos_some_spec ys i hfp
      simp only [Except.ok.injEq, Prod.mk.injEq] at hscan
      obtain ⟨ha, hb⟩ := hscan
      refine ⟨i, by rw [← hyslen]; exact hlen, ha.symm, hb.symm, htrans, hmin, ?_⟩
      intro hnz
      have hi0 : ys.getD i 0 ∈ ys := by
        rw [List.getD_eq_getElem _ _ (by omega : i < ys.length)]
        exact List.getElem_mem _
      have hi1 : ys.getD (i + 1) 0 ∈ ys := by
        rw [List.getD_eq_getElem _ _ hlen]
        exact List.getElem_mem _
      exact neg2pos_of_signs (hnz _ hi0) (hnz _ hi1) htrans
  · exact fun u v hu hv => pos2neg_not_selected hu hv
  · intro brentq p res hvalid
    unfold CoreShellParticle.calculate_s1_energies
    rw [hvalid, if_neg (show ¬(false = true) by simp)]
    dsimp only
    cases scan_and_bracket (fun E => electron_eigenvalue_residual p E) 0 (5 * p.ue) res with
    | error err => simp [Except.bind]
    | ok bracket =>
      simp only [Except.bind]
      cases brentq (fun E => electron_eigenvalue_residual p E) bracket.1 bracket.2 with
      | error err => simp [Except.bind]
      | ok s1e =>
        simp only [Except.bind]
        cases scan_and_bracket (fun E => hole_eigenvalue_residual p E) 0 (5 * p.uh) res with
        | error err => simp [Except.bind]
        | ok bracket2 =>
          simp only [Except.bind]
          cases brentq (fun E => hole_eigenvalue_residual p E) bracket2.1 bracket2.2 with
          | error err => simp [Except.bind]
          | ok s1h => simp [Except.bind]

theorem div_e_ne_self {j : ℝ} (hj : j ≠ 0) : j / e ≠ j := by
  intro heq
  rw [div_eq_iff (ne_of_gt e_pos)] at heq
  have h1 : j * 1 = j * e := by rw [mul_one]; exact heq
  have h2 : (1 : ℝ) = e := mul_left_cancel₀ hj h1
  unfold e at h2
  norm_num at h2

/-- C2: a cache hit returns the stored joule values `s1_e, s1_h` unchanged
and runs no scan, while a successful computing call stores the joule
values but returns them divided by `e` (`as_ev = true` is the default).
The second call therefore returns `e`-times the first call's values —
not bit-identical results whenever the energies are nonzero. -/
theorem calculate_s1_energies_cached_call_skips_ev :
    (∀ (brentq : Oracle) (p : CoreShellParticle) (res : ℕ) (a b : ℝ),
      p.energies_valid = true → p.s1_e = some a → p.s1_h = some b →
      CoreShellParticle.calculate_s1_energies brentq p none res true =
        .ok ((some a, some b), p)) ∧
    (∀ (brentq : Oracle) (p : CoreShellParticle) (res : ℕ)
        (r : Option ℝ × Option ℝ) (p' : CoreShellParticle),
      p.energies_valid = false →
      CoreShellParticle.calculate_s1_energies brentq p none res true = .ok (r, p') →
      ∃ j k : ℝ, p'.s1_e = some j ∧ p'.s1_h = some k ∧ p'.energies_valid = true ∧
        r = (some (j / e), some (k / e)) ∧
        CoreShellParticle.calculate_s1_energies brentq p' none res true =
          .ok ((some j, some k), p') ∧
        (j ≠ 0 → j / e ≠ j)) ∧
    (∀ j : ℝ, j ≠ 0 → j / e ≠ j) := by
  refine ⟨?_, ?_, fun j hj => div_e_ne_self hj⟩
  · intro brentq p res a b hvalid hs1e hs1h
    unfold CoreShellParticle.calculate_s1_energies
    rw [hvalid, if_pos rfl, hs1e, hs1h]
  · intro brentq p res r p' hvalid hok
    unfold CoreShellParticle.calculate_s1_energies at hok
    rw [hvalid, if_neg (show ¬(false = true) by simp)] at hok
    dsimp only at hok
    cases hscan1 : scan_and_bracket (fun E => electron_eigenvalue_residual p E)
        0 (5 * p.ue) res with
    | error err => rw [hscan1] at hok; simp at hok
    | ok bracket =>
      rw [hscan1] at hok
      dsimp only at hok
      cases hbr1 : brentq (fun E => electron_eigenvalue_residual p E)
          bracket.1 bracket.2 with
      | error err => rw [hbr1] at hok; simp at hok
      | ok s1e =>
        rw [hbr1] at hok
        dsimp only at hok
        cases hscan2 : scan_and_bracket (fun E => hole_eigenvalue_residual p E)
            0 (5 * p.uh) res with
        | error err => rw [hscan2] at hok; simp at hok
        | ok bracket2 =>
          rw [hscan2] at hok
          dsimp only at hok
          cases hbr2 : brentq (fun E => hole_eigenvalue_residual p E)
              bracket2.1 bracket2.2 with
          | error err => rw [hbr2] at hok; simp at hok
          | ok s1h =>
            rw [hbr2] at hok
            dsimp only at hok
            rw [if_pos (show (true = true) from rfl)] at hok
            simp only [Except.ok.injEq, Prod.mk.injEq] at hok
            obtain ⟨hr, hp⟩ := hok
            subst hp
            refine ⟨s1e, s1h, rfl, rfl, rfl, hr.symm, ?_, fun hj => div_e_ne_self hj⟩
            unfold CoreShellParticle.calculate_s1_energies
            rw [if_pos rfl]

/-- C4: construction sets `radius = (core_width + shell_width) * n_`, and
the width mutators update the width and invalidate the energy cache — but
they leave `radius` at its construction-time value, so after a mutation
`radius` no longer equals `core_width + shell_width` (shown at the
concrete mutation `set_core_width 2` of a `1 + 1` particle). -/
theorem width_mutators_leave_radius_stale :
    (∀ (cm sm : Material) (cw sw : ℝ),
      (CoreShellParticle.init cm sm cw sw).radius = (cw + sw) * n_ ∧
      (CoreShellParticle.init cm sm cw sw).core_width = cw * n_ ∧
      (CoreShellParticle.init cm sm cw sw).shell_width = sw * n_ ∧
      (CoreShellParticle.init cm sm cw sw).energies_valid = false) ∧
    (∀ (p : CoreShellParticle) (x : ℝ),
      (p.set_core_width x).core_width = x * n_ ∧
      (p.set_core_width x).energies_valid = false ∧
      (p.set_core_width x).shell_width = p.shell_width ∧
      (p.set_core_width x).radius = p.radius) ∧
    (∀ (p : CoreShellParticle) (x : ℝ),
      (p.set_shell_width x).shell_width = x * n_ ∧
      (p.set_shell_width x).energies_valid = false ∧
      (p.set_shell_width x).core_width = p.core_width ∧
      (p.set_shell_width x).radius = p.radius) ∧
    ((CoreShellParticle.init ⟨0, 0, 0, 0, 0⟩ ⟨0, 0, 0, 0, 0⟩ 1 1).set_core_width 2).radius ≠
      ((CoreShellParticle.init ⟨0, 0, 0, 0, 0⟩ ⟨0, 0, 0, 0, 0⟩ 1 1).set_core_width 2).core_width +
      ((CoreShellParticle.init ⟨0, 0, 0, 0, 0⟩ ⟨0, 0, 0, 0, 0⟩ 1 1).set_core_width 2).shell_width := by
  refine ⟨fun cm sm cw sw => ⟨rfl, rfl, rfl, rfl⟩,
    fun p x => ⟨rfl, rfl, rfl, rfl⟩, fun p x => ⟨rfl, rfl, rfl, rfl⟩, ?_⟩
  show (1 + 1 : ℝ) * n_ ≠ 2 * n_ + 1 * n_
  unfold n_
  norm_num

theorem electron_wavevectors_none {p : CoreShellParticle} (E : ℝ)
    (h1 : ¬ p.e_h) (h2 : ¬ p.h_e) : electron_wavevectors p E = none := by
  unfold electron_wavevectors
  rw [if_neg h1, if_neg h2]

theorem hole_wavevectors_none {p : CoreShellParticle} (E : ℝ)
    (h1 : ¬ p.e_h) (h2 : ¬ p.h_e) : hole_wavevectors p E = none := by
  unfold hole_wavevectors
  rw [if_neg h1, if_neg h2]

theorem electron_residual_typeError {p : CoreShellParticle} (E : ℝ)
    (h1 : ¬ p.e_h) (h2 : ¬ p.h_e) :
    electron_eigenvalue_residual p E = .error .typeError := by
  unfold electron_eigenvalue_residual
  rw [electron_wavevectors_none E h1 h2]

theorem hole_residual_typeError {p : CoreShellParticle} (E : ℝ)
    (h1 : ¬ p.e_h) (h2 : ¬ p.h_e) :
    hole_eigenvalue_residual p E = .error .typeError := by
  unfold hole_eigenvalue_residual
  rw [hole_wavevectors_none E h1 h2]

theorem calcS1_typeError_of_no_ordering (brentq : Oracle)
    (p : CoreShellParticle) (bounds : Option ((ℝ × ℝ) × (ℝ × ℝ)))
    (res : ℕ) (as_ev : Bool) (h1 : ¬ p.e_h) (h2 : ¬ p.h_e)
    (hv : p.energies_valid = false) (hres : 1 ≤ res) :
    CoreShellParticle.calculate_s1_energies brentq p bounds res as_ev =
      .error .typeError := by
  have hscan : ∀ lo hi : ℝ,
      scan_and_bracket (fun E => electron_eigenvalue_residual p E) lo hi res =
        .error .typeError := by
    intro lo hi
    unfold scan_and_bracket
    rw [evalAll_error_of_all_error (fun E => electron_residual_typeError E h1 h2)
      _ (linspace_ne_nil hres)]
  unfold CoreShellParticle.calculate_s1_energies
  rw [hv, if_neg (show ¬(false = true) by simp)]
  cases bounds with
  | none =>
    dsimp only
    rw [hscan 0 (5 * p.ue)]
  | some bp =>
    obtain ⟨⟨lo, hi⟩, bh⟩ := bp
    dsimp only
    rw [hscan lo hi]

/-- C10: when neither type-II ordering holds, both residuals leave the
wavevectors `None` and fail with the `TypeError` raised by arithmetic on
`None`; every fresh energy query then fails with that `TypeError` (for
any bounds, any `as_ev` and any nonzero resolution), so a successful
query forces one of the two orderings — and Type I materials (higher core
valence edge, lower core conduction edge) are exactly such a flagless
case. -/
theorem energy_query_requires_type_two_ordering :
    (∀ (p : CoreShellParticle) (E : ℝ), ¬ p.e_h → ¬ p.h_e →
      electron_wavevectors p E = none ∧ hole_wavevectors p E = none ∧
      electron_eigenvalue_residual p E = .error .typeError ∧
      hole_eigenvalue_residual p E = .error .typeError) ∧
    (∀ (brentq : Oracle) (p : CoreShellParticle)
        (bounds : Option ((ℝ × ℝ) × (ℝ × ℝ))) (res : ℕ) (as_ev : Bool),
      ¬ p.e_h → ¬ p.h_e → p.energies_valid = false → 1 ≤ res →
      CoreShellParticle.calculate_s1_energies brentq p bounds res as_ev =
        .error .typeError) ∧
    (∀ (brentq : Oracle) (p : CoreShellParticle)
        (bounds : Option ((ℝ × ℝ) × (ℝ × ℝ))) (res : ℕ) (as_ev : Bool)
        (out : (Option ℝ × Option ℝ) × CoreShellParticle),
      p.energies_valid = false → 1 ≤ res →
      CoreShellParticle.calculate_s1_energies brentq p bounds res as_ev = .ok out →
      p.e_h ∨ p.h_e) ∧
    (∀ (cm sm : Material) (cw sw : ℝ), cm.vbe > sm.vbe → cm.cbe < sm.cbe →
      ¬ (CoreShellParticle.init cm sm cw sw).e_h ∧
      ¬ (CoreShellParticle.init cm sm cw sw).h_e) := by
  refine ⟨?_, ?_, ?_, ?_⟩
  · intro p E h1 h2
    exact ⟨electron_wavevectors_none E h1 h2, hole_wavevectors_none E h1 h2,
      electron_residual_typeError E h1 h2, hole_residual_typeError E h1 h2⟩
  · intro brentq p bounds res as_ev h1 h2 hv hres
    exact calcS1_typeError_of_no_ordering brentq p bounds res as_ev h1 h2 hv hres
  · intro brentq p bounds res as_ev out hv hres hok
    by_contra hno
    have h1 : ¬ p.e_h := fun hx => hno (Or.inl hx)
    have h2 : ¬ p.h_e := fun hx => hno (Or.inr hx)
    rw [calcS1_typeError_of_no_ordering brentq p bounds res as_ev h1 h2 hv hres] at hok
    simp at hok
  · intro cm sm cw sw hv hc
    constructor
    · rintro ⟨hvb, _⟩
      exact absurd hvb (not_lt.mpr hv.le)
    · rintro ⟨_, hcb⟩
      exact absurd hcb (not_lt.mpr hc.le)

/-- A concrete run of the bracket scan on the residual `2x - 5` over
`[0, 5]` with six samples: the sampled signs are `-,-,-,+,+,+` and the
scan returns the adjacent bracketing pair `(2, 3)`. -/
theorem scan_and_bracket_example :
    scan_and_bracket (fun x => .ok (2 * x - 5)) 0 5 6 = .ok (2, 3) := by
  have hlin : linspace 0 5 6 = [0, 1, 2, 3, 4, 5] := by
    unfold linspace
    norm_num [List.range_succ]
  unfold scan_and_bracket
  rw [hlin, show (fun x : ℝ => (Except.ok (2 * x - 5) : Except PyError ℝ)) =
    (fun x : ℝ => .ok ((fun y : ℝ => 2 * y - 5) x)) from rfl, evalAll_pure]
  norm_num [firstNeg2Pos_cons₂, npSign]

/-- A particle with the electron-core-first type-II ordering (`e_h`),
equal electron and hole mass ratios, but different electron and hole
potential offsets (`ue = e`, `uh = 2e`): the hole equation's wavevectors
come out identical to the electron equation's, not hole-specific. -/
def holeParamParticle : CoreShellParticle :=
  CoreShellParticle.init ⟨0, 0, 1, 1, 1⟩ ⟨1, 2, 1, 1, 1⟩ 1 1

theorem holeParamParticle_e_h : holeParamParticle.e_h := by
  show (0 : ℝ) < 2 ∧ (0 : ℝ) < 1
  norm_num

/-- C1: the hole eigenvalue residual's wavevectors are computed from the
*electron* parameters: `hole_wavevectors` coincides with
`electron_wavevectors` on every particle and energy (both read
`cmat.m_e`, `smat.m_e` and `ue`), only the mass ratio in the residual
formula uses the hole masses; on a concrete `e_h` particle with
`uh ≠ ue` the hole wavevectors differ from the claim's hole-parameter
assignment. -/
theorem hole_residual_uses_electron_parameters :
    (∀ (p : CoreShellParticle) (E : ℝ),
      hole_wavevectors p E = electron_wavevectors p E) ∧
    (∀ (p : CoreShellParticle) (E : ℝ) (k q : ℂ),
      hole_wavevectors p E = some (k, q) →
      hole_eigenvalue_residual p E =
        .ok (residual_formula (k * ((p.core_width : ℝ) : ℂ))
          (q * ((p.shell_width : ℝ) : ℂ)) p.core_width p.shell_width
          (p.smat.m_h / p.cmat.m_h))) ∧
    hole_wavevectors holeParamParticle 0 ≠
      hole_wavevectors_spec holeParamParticle 0 := by
  refine ⟨fun p E => rfl, ?_, ?_⟩
  · intro p E k q h
    unfold hole_eigenvalue_residual
    rw [h]
  · have hP := holeParamParticle_e_h
    have hue : holeParamParticle.ue = e := by
      show |(0 : ℝ) - 1| * e = e
      rw [show |(0 : ℝ) - 1| = 1 by rw [show (0 : ℝ) - 1 = -1 by norm_num, abs_neg, abs_one]]
      rw [one_mul]
    have huh : holeParamParticle.uh = 2 * e := by
      show |(0 : ℝ) - 2| * e = 2 * e
      rw [show |(0 : ℝ) - 2| = 2 by
        rw [show (0 : ℝ) - 2 = -2 by norm_num, abs_neg]
        exact abs_of_pos (by norm_num)]
    intro heq
    unfold hole_wavevectors hole_wavevectors_spec at heq
    rw [if_pos hP, if_pos hP] at heq
    simp only [Option.some.injEq, Prod.mk.injEq] at heq
    obtain ⟨-, hq⟩ := heq
    have hsm_e : holeParamParticle.smat.m_e = 1 := rfl
    have hsm_h : holeParamParticle.smat.m_h = 1 := rfl
    rw [hsm_e, hsm_h, hue, huh] at hq
    unfold wavenumber_from_energy at hq
    have hme := m_e_pos
    have hep := e_pos
    have harg1 : 2 * 1 * m_e * ((0 : ℝ) - e) < 0 := by nlinarith
    have harg2 : 2 * 1 * m_e * ((0 : ℝ) - 2 * e) < 0 := by nlinarith
    rw [csqrt_of_neg harg1, csqrt_of_neg harg2] at hq
    have hbarne : ((hbar : ℝ) : ℂ) ≠ 0 :=
      Complex.ofReal_ne_zero.mpr (ne_of_gt hbar_pos)
    have hq2 := congrArg (fun z : ℂ => z * ((hbar : ℝ) : ℂ)) hq
    simp only [div_mul_cancel₀ _ hbarne] at hq2
    have hq3 := mul_left_cancel₀ Complex.I_ne_zero hq2
    have hq4 : Real.sqrt (-(2 * 1 * m_e * ((0 : ℝ) - e))) =
        Real.sqrt (-(2 * 1 * m_e * ((0 : ℝ) - 2 * e))) := by
      exact_mod_cast hq3
    have h5 : -(2 * 1 * m_e * ((0 : ℝ) - e)) = -(2 * 1 * m_e * ((0 : ℝ) - 2 * e)) :=
      (Real.sqrt_inj (by linarith) (by linarith)).mp hq4
    nlinarith [h5]

/-- The particle used for the Coulomb-operator computation: unit
dielectric constants and a core width of exactly one length unit. -/
def coulombParticle : CoreShellParticle :=
  { cmat := ⟨0, 0, 0, 0, 1⟩
    smat := ⟨0, 0, 0, 0, 1⟩
    core_width := n_
    shell_width := n_
    radius := 2 * n_
    type_one := False
    type_two := False
    h_e := False
    e_h := False
    energies_valid := false
    s1_e := none
    s1_h := none
    ue := 0
    uh := 0 }

/-- C9 counterexample: with unit dielectric constants, core radius `1`
(in rescaled units) and `r_a = r_b = 2`, the code's Coulomb screening
operator gives `-e / (2 * eps0 * n_)` while the spec's formula (which has
no vacuum-permittivity factor) gives `-e / (2 * n_)`; the two differ. -/
theorem coulomb_operator_missing_eps0 :
    coulomb_screening_operator coulombParticle 2 2 ≠
      coulomb_screening_operator_spec coulombParticle 2 2 := by
  unfold coulomb_screening_operator coulomb_screening_operator_spec coulombParticle
  norm_num [_heaviside, n_, eps0, e]

/-- C9 (amended): the Coulomb screening operator equals the spec's
step-function formula with each term's denominator additionally
multiplied by the vacuum permittivity `eps0`, all scaled by `e / n_`;
the step function is half at zero, one on positives, zero on negatives,
the core radius is pre-rescaled by `n_`, and the operator is symmetric
in its two radii. -/
theorem coulomb_operator_formula :
    (∀ (p : CoreShellParticle) (r_a r_b : ℝ),
      coulomb_screening_operator p r_a r_b =
        (-_heaviside (p.core_width / n_ - r_a) (1 / 2) *
              _heaviside (p.core_width / n_ - r_b) (1 / 2) /
              (max r_a r_b * p.cmat.eps * eps0) -
            (_heaviside (r_a - p.core_width / n_) (1 / 2) +
              _heaviside (r_b - p.core_width / n_) (1 / 2)) /
              (2 * max r_a r_b * p.smat.eps * eps0)) * e / n_) ∧
    _heaviside 0 (1 / 2) = 1 / 2 ∧
    (∀ x x2 : ℝ, 0 < x → _heaviside x x2 = 1) ∧
    (∀ x x2 : ℝ, x < 0 → _heaviside x x2 = 0) ∧
    (∀ (p : CoreShellParticle) (r_a r_b : ℝ),
      coulomb_screening_operator p r_a r_b =
        coulomb_screening_operator p r_b r_a) := by
  refine ⟨?_, ?_, ?_, ?_, ?_⟩
  · intro p r_a r_b
    unfold coulomb_screening_operator
    norm_num
  · unfold _heaviside
    norm_num
  · intro x x2 hx
    unfold _heaviside
    rw [if_pos hx]
  · intro x x2 hx
    unfold _heaviside
    rw [if_neg (by linarith), if_neg (ne_of_lt hx)]
  · intro p r_a r_b
    unfold coulomb_screening_operator
    dsimp only
    rw [max_comm r_a r_b]
    ring

end PyNCband
